import Mathlib

/-!
Verification of the reflective GraphQL schema-generation and field-resolution
engine of `graphql-reflect-go` (`createGraphQlFieldHierarchy`, `executeQuery`,
`QueryStructViaGraphql`, `Min` and `getBasicOutput`), shallowly embedded in
Lean 4.  Go runtime values are modelled by the inductive `RVal`, Go runtime
types by `GoType`, and the maps threaded through the traversal by association
lists.  Machine floating point is modelled exactly: a `float64` value is the
rational number it denotes, and the Go conversion `float64(n)` for a 64-bit
integer `n` is the round-to-nearest-even function `float64OfInt`.
-/

set_option autoImplicit false

namespace GraphqlReflect

/-- Association-list update, modelling Go map assignment `m[k] = v`
(overwrites an existing entry for the key, otherwise appends). -/
def insertA {α : Type} : List (String × α) → String → α → List (String × α)
  | [], k, v => [(k, v)]
  | (k', v') :: rest, k, v =>
    if k' = k then (k, v) :: rest else (k', v') :: insertA rest k v

/-- Association-list lookup, modelling Go map read `m[k]`. -/
def lookupA {α : Type} : List (String × α) → String → Option α
  | [], _ => none
  | (k', v') :: rest, k => if k' = k then some v' else lookupA rest k

theorem lookupA_insertA_self {α : Type} (m : List (String × α)) (k : String) (v : α) :
    lookupA (insertA m k v) k = some v := by
  induction m with
  | nil => simp [insertA, lookupA]
  | cons hd tl ih =>
    obtain ⟨k', v'⟩ := hd
    by_cases h : k' = k <;> simp [insertA, lookupA, h, ih]

theorem lookupA_insertA_ne {α : Type} (m : List (String × α)) (k k' : String) (v : α)
    (h : k' ≠ k) : lookupA (insertA m k v) k' = lookupA m k' := by
  induction m with
  | nil => simp [insertA, lookupA, Ne.symm h]
  | cons hd tl ih =>
    obtain ⟨k0, v0⟩ := hd
    by_cases h0 : k0 = k
    · subst h0
      simp [insertA, lookupA, Ne.symm h]
    · by_cases h1 : k0 = k' <;> simp [insertA, lookupA, h0, h1, h, ih]

/-- ASCII lower-casing of one character, as `strings.ToLower` acts on the
ASCII identifiers Go field names are made of. -/
def lowerChar (c : Char) : Char :=
  if 65 ≤ c.toNat ∧ c.toNat ≤ 90 then Char.ofNat (c.toNat + 32) else c

/-- `strings.ToLower` on ASCII strings (Go exported identifiers). -/
def lowerStr (s : String) : String :=
  String.mk (s.data.map lowerChar)

/-! ## IEEE-754 double conversion of integers

Go's `float64(x)` for an `int64`/`uint64` `x` rounds `x` to the nearest
double (53-bit significand), ties to even.  `bitlen` is the bit length of a
natural number below `2 ^ 64` (a fuel-based binary recursion so that the
kernel can evaluate it); `f64round` rounds a natural below `2 ^ 64` to the
nearest multiple of the representable spacing, and `float64OfInt` extends it
to integers by sign symmetry. -/

/-- Bit length of `n`, computed with `fuel` halving steps. -/
def bitlenAux : Nat → Nat → Nat
  | 0, _ => 0
  | fuel + 1, n => if n = 0 then 0 else bitlenAux fuel (n / 2) + 1

/-- Bit length of a natural number below `2 ^ 64`. -/
def bitlen (n : Nat) : Nat := bitlenAux 64 n

/-- Round a natural number below `2 ^ 64` to the nearest IEEE-754 double
(round to nearest, ties to even).  Exact for `n ≤ 2 ^ 53`. -/
def f64round (n : Nat) : Nat :=
  if n ≤ 2 ^ 53 then n
  else
    let e := bitlen n - 53
    let p := 2 ^ e
    let q := n / p
    let r := n % p
    let half := 2 ^ (e - 1)
    if r < half then q * p
    else if half < r then (q + 1) * p
    else if q % 2 = 0 then q * p else (q + 1) * p

/-- The value of Go's `float64(n)` for a 64-bit integer `n`, as an exact
integer (all doubles of this magnitude are integers). -/
def float64OfInt (n : Int) : Int :=
  if 0 ≤ n then (f64round n.toNat : Int) else -(f64round n.natAbs : Int)

theorem f64round_exact {n : Nat} (h : n ≤ 2 ^ 53) : f64round n = n := by
  unfold f64round
  rw [if_pos h]

theorem float64OfInt_exact {n : Int} (h : n.natAbs ≤ 2 ^ 53) : float64OfInt n = n := by
  unfold float64OfInt
  by_cases h0 : 0 ≤ n
  · have ht : n.toNat ≤ 2 ^ 53 := by omega
    rw [if_pos h0, f64round_exact ht]
    omega
  · have ht : n.natAbs ≤ 2 ^ 53 := h
    rw [if_neg h0, f64round_exact ht]
    omega

/-! ## Go runtime values

`RVal` models the Go values the resolver closures can encounter via
`reflect.Value`.  A `float64`/`float32` carries the rational number it
denotes; integer constructors carry the mathematical integer stored in the
machine word (the width bound is a hypothesis where it matters).  `vtime`
is a `time.Time` value identified by its `UnixMilli()`; `vfuncVal`
abstracts a function-typed value (nil or not); `vother` stands for any
value of a kind none of the resolver switches recognise. -/
inductive RVal where
  | vstr (s : String)
  | vbool (b : Bool)
  | vint (n : Int)
  | vint8 (n : Int)
  | vint16 (n : Int)
  | vint32 (n : Int)
  | vint64 (n : Int)
  | vuint (n : Nat)
  | vuint8 (n : Nat)
  | vuint16 (n : Nat)
  | vuint32 (n : Nat)
  | vuint64 (n : Nat)
  | vfloat32 (q : ℚ)
  | vfloat64 (q : ℚ)
  | vtime (unixMilli : Int)
  | vstruct (name : String) (members : List (String × RVal))
  | vslice (elems : List RVal)
  | vfuncVal (isNil : Bool)
  | vother

/-- A value supplied for a member of a `where` filter argument.  Because the
input-object members are typed `graphql.String`, `graphql.Float` or
`graphql.Boolean` (see `getBasicOutput`), the value arriving in `p.Args` is a
Go `string`, `float64` or `bool`; a numeric filter value is always `float64`. -/
inductive FilterVal where
  | num (q : ℚ)
  | str (s : String)
  | bool (b : Bool)

/-- The per-member comparison of the `where` branch of the `Resolve` closure
(`part_001` lines 247-267): a `float64` filter value is compared against the
member after converting the member when it is `float64`, `int`, `int8`,
`int32` or `int64` (no other member representation is converted, so `match`
keeps its zero value `false`); any other filter value is compared by Go
interface equality (equal dynamic type and equal value). -/
def goMatch : FilterVal → RVal → Bool
  | .num fv, rv =>
    match rv with
    | .vfloat64 q => fv = q
    | .vint n => fv = ((float64OfInt n : Int) : ℚ)
    | .vint8 n => fv = ((float64OfInt n : Int) : ℚ)
    | .vint32 n => fv = ((float64OfInt n : Int) : ℚ)
    | .vint64 n => fv = ((float64OfInt n : Int) : ℚ)
    | _ => false
  | .str s, rv =>
    match rv with
    | .vstr s2 => s = s2
    | _ => false
  | .bool b, rv =>
    match rv with
    | .vbool b2 => b = b2
    | _ => false

/-- A struct element of a collection, as its member list (declared member
name, value). -/
def Elem : Type := List (String × RVal)

/-- `element.FieldByNameFunc(fun s => strings.ToLower(s) == fieldName)`:
the first member whose lower-cased name is the filter key; `none` models the
zero `reflect.Value` returned when no member matches. -/
def fieldByLowerName (e : Elem) (key : String) : Option RVal :=
  match e with
  | [] => none
  | (n, v) :: rest => if lowerStr n = key then some v else fieldByLowerName rest key

/-- The inner loop of the `where` branch over the filter members for one
element: returns `some true` on the first matching member, `some false` when
no member matches, and `none` when a filter key has no same-named member
(there Go calls `Interface()` on the zero `reflect.Value` and panics). -/
def elemScan : List (String × FilterVal) → Elem → Option Bool
  | [], _ => some false
  | (k, fv) :: rest, e =>
    match fieldByLowerName e k with
    | none => none
    | some rv => if goMatch fv rv then some true else elemScan rest e

/-- `Min` (`part_001` lines 374-380), at the `int` instantiation used by the
skip/limit branch. -/
def goMin (x y : Int) : Int := if x < y then x else y

/-- Go `r.Slice(i, j)` as called from the `Resolve` closure, where
`r = reflect.ValueOf(p.Source).FieldByName(...)` is unaddressable
(`p.Source` arrives interface-wrapped).  `reflect.Value.Slice` panics on an
unaddressable array, so for an array-kind member (`arrayKind = true`) every
call panics; for a slice-kind member it returns the sub-collection `[i, j)`
when the bounds are valid and panics otherwise.  `none` models a panic. -/
def goSlice {α : Type} (arrayKind : Bool) (xs : List α) (i j : Int) : Option (List α) :=
  if arrayKind then none
  else if 0 ≤ i ∧ i ≤ j ∧ j ≤ (xs.length : Int) then
    some ((xs.drop i.toNat).take (j - i).toNat)
  else none

/-- The `where` branch of the `Resolve` closure (`part_001` lines 234-277),
for a member whose declared kind is Slice or Array (`arrayKind` tells
which): scan the source collection in order; the first element some filter
member of which matches is returned as the single-element slice
`r.Slice(i, i+1)` (line 270); if the scan finishes, return the empty slice
`r.Slice(0, 0)` (line 276).  As in `goSlice`, both returns panic for an
array-kind member (`reflect.Value.Slice` on an unaddressable array);
`none` also models a panic propagated from `elemScan`. -/
def whereResolve (arrayKind : Bool) :
    List Elem → List (String × FilterVal) → Option (List Elem)
  | [], _ => if arrayKind then none else some []
  | e :: rest, filt =>
    match elemScan filt e with
    | none => none
    | some true => if arrayKind then none else some [e]
    | some false => whereResolve arrayKind rest filt

/-- The start index of the skip/limit branch (`part_001` lines 280-283):
`i` starts at `0`; a supplied `skip` sets `i = Min(skip.(int), j-1)` where
`j` is the collection length. -/
def skipStart (len : Int) : Option Int → Int
  | some s => goMin s (len - 1)
  | none => 0

/-- The end index of the skip/limit branch (`part_001` lines 286-289):
`j` starts at the collection length; a supplied `limit` sets
`j = Min(i+limit.(int), j)`. -/
def limitEnd (len i : Int) : Option Int → Int
  | some l => goMin (i + l) len
  | none => len

/-- The skip/limit branch of the `Resolve` closure (`part_001` lines
279-291), for a member whose declared kind is Slice or Array: compute the
window and return `r.Slice(i, j)` (line 291), which panics for an
array-kind member regardless of the window. -/
def skipLimitResolve {α : Type} (arrayKind : Bool) (xs : List α)
    (skip limit : Option Int) : Option (List α) :=
  let i := skipStart (xs.length : Int) skip
  let j := limitEnd (xs.length : Int) i limit
  goSlice arrayKind xs i j

/-- The `Func` branch of the `Resolve` closure (`part_001` lines 216-228):
if the member's function value is nil, return `(nil, nil)`; otherwise call it
with the enclosing instance `p.Source` and pass its `(value, error)` results
through.  Function values are abstracted by a code type `F` interpreted by
`eval` (Go invokes the reflected function itself). -/
def funcResolve {F S V E : Type} (eval : F → S → V × Option E)
    (source : S) (r : Option F) : Option V × Option E :=
  match r with
  | none => (none, none)
  | some f =>
    let results := eval f source
    let err : Option E :=
      match results.2 with
      | some e => some e
      | none => none
    (some results.1, err)

/-- The trailing `r.Kind()` switch of the `Resolve` closure (`part_001`
lines 295-324), reached when the member's declared kind is not `Func`,
`Slice` or `Array`: integers of every width and signedness are returned as
`float64(r.Int())`/`float64(r.Uint())`; bool, float and string values are
returned as themselves (`r.Float()` widens `float32` exactly); a struct
value recognised as `time.Time` is returned as `float64(UnixMilli())`,
any other struct as itself; everything else is the fixed
`errors.New("unknown type")`. -/
def resolveKindSwitch (r : RVal) : Option RVal × Option String :=
  match r with
  | .vint n => (some (.vfloat64 ((float64OfInt n : Int) : ℚ)), none)
  | .vint8 n => (some (.vfloat64 ((float64OfInt n : Int) : ℚ)), none)
  | .vint16 n => (some (.vfloat64 ((float64OfInt n : Int) : ℚ)), none)
  | .vint32 n => (some (.vfloat64 ((float64OfInt n : Int) : ℚ)), none)
  | .vint64 n => (some (.vfloat64 ((float64OfInt n : Int) : ℚ)), none)
  | .vuint n => (some (.vfloat64 ((float64OfInt (n : Int) : Int) : ℚ)), none)
  | .vuint8 n => (some (.vfloat64 ((float64OfInt (n : Int) : Int) : ℚ)), none)
  | .vuint16 n => (some (.vfloat64 ((float64OfInt (n : Int) : Int) : ℚ)), none)
  | .vuint32 n => (some (.vfloat64 ((float64OfInt (n : Int) : Int) : ℚ)), none)
  | .vuint64 n => (some (.vfloat64 ((float64OfInt (n : Int) : Int) : ℚ)), none)
  | .vbool b => (some (.vbool b), none)
  | .vfloat32 q => (some (.vfloat64 q), none)
  | .vfloat64 q => (some (.vfloat64 q), none)
  | .vstr s => (some (.vstr s), none)
  | .vtime ms => (some (.vfloat64 ((float64OfInt ms : Int) : ℚ)), none)
  | .vstruct name members => (some (.vstruct name members), none)
  | _ => (none, some "unknown type")

/-! ## Go runtime types

`GoType` models the `reflect.Type` values the traversal can encounter.
Struct field lists are the mutually inductive `GoFields` so that the
traversal can be defined by mutual structural recursion.  `gslice` covers
both the `Slice` and `Array` kinds, which schema construction treats
identically (`part_001` lines 156-207 and 337-339); resolution does not —
`r.Slice` panics for array-kind members — so the resolver models
`whereResolve`/`skipLimitResolve`/`goSlice` carry an explicit kind flag;
`gfunc ret` is a function type whose first result type is `ret` (the
source only reads `t.Out(0)`); `giface` is an interface kind and `gother`
any further kind none of the switches recognise. -/
mutual
inductive GoType where
  | gstring
  | gbool
  | gint
  | gint8
  | gint16
  | gint32
  | gint64
  | guint
  | guint8
  | guint16
  | guint32
  | guint64
  | gfloat32
  | gfloat64
  | gtime
  | gstruct (name : String) (fields : GoFields)
  | gslice (elem : GoType)
  | gfunc (ret : GoType)
  | giface
  | gother

inductive GoFields where
  | nil
  | cons (name : String) (type : GoType) (rest : GoFields)
end

/-- `reflect.Type.Name()`: the declared name of a defined type, `""` for
slice, array, function and unnamed interface types.  `time.Time`'s name is
`"Time"`. -/
def nameOf : GoType → String
  | .gstring => "string"
  | .gbool => "bool"
  | .gint => "int"
  | .gint8 => "int8"
  | .gint16 => "int16"
  | .gint32 => "int32"
  | .gint64 => "int64"
  | .guint => "uint"
  | .guint8 => "uint8"
  | .guint16 => "uint16"
  | .guint32 => "uint32"
  | .guint64 => "uint64"
  | .gfloat32 => "float32"
  | .gfloat64 => "float64"
  | .gtime => "Time"
  | .gstruct name _ => name
  | .gslice _ => ""
  | .gfunc _ => ""
  | .giface => ""
  | .gother => ""

/-- Whether `t.Kind() == reflect.Struct`.  `time.Time` is a struct type. -/
def kindIsStruct : GoType → Bool
  | .gstruct _ _ => true
  | .gtime => true
  | _ => false

/-- `reflect.VisibleFields` of a struct type.  For `time.Time` these are its
unexported members `wall uint64`, `ext int64`, `loc *Location`. -/
def visibleFields : GoType → GoFields
  | .gstruct _ fs => fs
  | .gtime => .cons "wall" .guint64 (.cons "ext" .gint64 (.cons "loc" .gother .nil))
  | _ => .nil

/-! ## GraphQL schema nodes

`Output` models `graphql.Output` (and the input types used for argument
configurations): the four scalar singletons, `NewList` (whose element is
`Option` because the source wraps a possibly-nil element output without
checking), `NewObject` and `NewInputObject`.  A `GqlField` (`graphql.Field`) carries the
original-case `Name`, the output `Type` and the `Args` map (argument name to
the `ArgumentConfig`'s type). -/
mutual
inductive Output where
  | gqlString
  | gqlFloat
  | gqlBoolean
  | gqlInt
  | list (elem : Option Output)
  | object (name : String) (fields : List (String × GqlField))
  | inputObject (name : String) (fields : List (String × Output))

inductive GqlField where
  | mk (name : String) (type : Output) (args : List (String × Output))
end

/-- The field map `graphql.Fields`: lower-cased field name to `Field`. -/
def Fields : Type := List (String × GqlField)

def GqlField.name : GqlField → String
  | .mk n _ _ => n

def GqlField.type : GqlField → Output
  | .mk _ t _ => t

def GqlField.args : GqlField → List (String × Output)
  | .mk _ _ a => a

/-- `getBasicOutput` (`part_001` lines 33-59): the fixed primitive-kind
table.  Strings map to `graphql.String`, every signed and unsigned integer
width and both float widths to `graphql.Float`, bool to `graphql.Boolean`;
any other kind yields `nil`. -/
def getBasicOutput : GoType → Option Output
  | .gstring => some .gqlString
  | .gint => some .gqlFloat
  | .guint => some .gqlFloat
  | .gint8 => some .gqlFloat
  | .guint8 => some .gqlFloat
  | .gint16 => some .gqlFloat
  | .guint16 => some .gqlFloat
  | .gint32 => some .gqlFloat
  | .guint32 => some .gqlFloat
  | .gint64 => some .gqlFloat
  | .guint64 => some .gqlFloat
  | .gbool => some .gqlBoolean
  | .gfloat32 => some .gqlFloat
  | .gfloat64 => some .gqlFloat
  | _ => none

/-- The loop `for k, v := range subfields` (`part_001` lines 142-149):
every subfield whose type is one of the four scalar singletons becomes an
argument of the same name and type. -/
def argsFromSubfields (subfields : Fields) : List (String × Output) :=
  subfields.foldl
    (fun args kv =>
      match kv.2.type with
      | .gqlString => insertA args kv.1 kv.2.type
      | .gqlInt => insertA args kv.1 kv.2.type
      | .gqlBoolean => insertA args kv.1 kv.2.type
      | .gqlFloat => insertA args kv.1 kv.2.type
      | _ => args)
    []

/-- Accumulator loop for `filterFields`. -/
def filterFieldsAux : GoFields → List (String × Output) → List (String × Output)
  | .nil, acc => acc
  | .cons n t rest, acc =>
    match getBasicOutput t with
    | some o => filterFieldsAux rest (insertA acc (lowerStr n) o)
    | none => filterFieldsAux rest acc

/-- The member map of a `where` input object (`part_001` lines 172-181):
each visible field of the element type with a non-nil basic output, keyed by
its lower-cased name. -/
def filterFields (fs : GoFields) : List (String × Output) :=
  filterFieldsAux fs []

/-- The per-build type cache `typesMap`: `t.Name()` to the registered
`(Output, Fields)` pair. -/
def TMap : Type := List (String × (Output × Fields))

/-- The per-build filter cache `filterMap`: struct-field name to the
`ArgumentConfig` type of its memoized `where` filter. -/
def FMap : Type := List (String × Output)

/-- Argument synthesis for one struct member (`part_001` lines 139-207):
`args` starts as the scalar-typed entries of the member's subfields; if the
member's type is a slice or array of structs, a `where` argument is added
whose input object (named after the lower-cased field name, members the
element type's basic-scalar visible fields) is memoized in `filterMap`
under the field name; if it is a slice or array of non-structs, integer
`skip` and `limit` arguments are added. -/
def buildArgs (structFieldName : String) (ftype : GoType) (subfields : Fields)
    (fm : FMap) : List (String × Output) × FMap :=
  let args := argsFromSubfields subfields
  match ftype with
  | .gslice elem =>
    if kindIsStruct elem then
      match lookupA fm structFieldName with
      | some argConfig => (insertA args "where" argConfig, fm)
      | none =>
        let argConfig := Output.inputObject (lowerStr structFieldName)
          (filterFields (visibleFields elem))
        (insertA args "where" argConfig, insertA fm structFieldName argConfig)
    else
      (insertA (insertA args "skip" .gqlInt) "limit" .gqlInt, fm)
  | _ => (args, fm)

/-- Result of `createGraphQlFieldHierarchy` on one type: the returned
output (`none` models a nil `graphql.Output`), the returned field map, the
two caches after the call, and the ghost `log` of names registered in
`typesMap` during the call, in registration order. -/
structure BuildRes where
  out : Option Output
  flds : Fields
  tm : TMap
  fm : FMap
  log : List String

/-- Result of the member loop of the struct case: the accumulated field
map, the caches, and the ghost registration log. -/
structure FieldsRes where
  flds : Fields
  tm : TMap
  fm : FMap
  log : List String

mutual
/-- `createGraphQlFieldHierarchy` (`part_001` lines 65-343).  The cache
lookup under `t.Name()` comes first; then the `time.Time` transform; then
the kind switch: `Func` recurses on the return type unless it is an
interface kind; `Struct` runs the member loop, wraps the result in
`NewObject` and registers it under `t.Name()`; `Array`/`Slice` recurses on
the element type and wraps it in `NewList`; everything else is
`getBasicOutput`. -/
def build (t : GoType) (tm : TMap) (fm : FMap) : BuildRes :=
  match t, lookupA tm (nameOf t) with
  | _, some p => ⟨some p.1, p.2, tm, fm, []⟩
  | .gtime, none => ⟨some .gqlFloat, [], tm, fm, []⟩
  | .gfunc .giface, none => ⟨none, [], tm, fm, []⟩
  | .gfunc ret, none => build ret tm fm
  | .gstruct name fs, none =>
    let r := buildFields fs [] tm fm
    let o := Output.object name r.flds
    ⟨some o, r.flds, insertA r.tm name (o, r.flds), r.fm, r.log ++ [name]⟩
  | .gslice elem, none =>
    let r := build elem tm fm
    ⟨some (.list r.out), r.flds, r.tm, r.fm, r.log⟩
  | t, none => ⟨getBasicOutput t, [], tm, fm, []⟩

/-- The member loop of the struct case (`part_001` lines 114-327): for each
member, recurse on its type; skip the member if that yields a nil output;
otherwise synthesize its arguments and store the field under the
lower-cased member name. -/
def buildFields (fs : GoFields) (acc : Fields) (tm : TMap) (fm : FMap) : FieldsRes :=
  match fs with
  | .nil => ⟨acc, tm, fm, []⟩
  | .cons fname ftype rest =>
    let r := build ftype tm fm
    match r.out with
    | none =>
      let r2 := buildFields rest acc r.tm r.fm
      ⟨r2.flds, r2.tm, r2.fm, r.log ++ r2.log⟩
    | some o =>
      let af := buildArgs fname ftype r.flds r.fm
      let fld := GqlField.mk fname o af.1
      let r2 := buildFields rest (insertA acc (lowerStr fname) fld) r.tm af.2
      ⟨r2.flds, r2.tm, r2.fm, r.log ++ r2.log⟩
end

/-! ## Query execution and serialization

`executeQuery` (`part_001` lines 21-31) and the tail of
`QueryStructViaGraphql` (`part_001` lines 362-371).  The external
collaborator `graphql.Do` is an opaque service; its result is the input
`GqlResult`: a data tree and a list of formatted errors.  `ε` is the type of
the collaborator's formatted errors, `E` the type of unwrapped Go errors and
`originalError` models `gqlerrors.FormattedError.OriginalError()`. -/

mutual
inductive Jx where
  | jnull
  | jbool (b : Bool)
  | jnum (q : ℚ)
  | jstr (s : String)
  | jarr (items : JxItems)
  | jobj (members : JxMembers)

inductive JxItems where
  | nil
  | cons (head : Jx) (tail : JxItems)

inductive JxMembers where
  | nil
  | cons (key : String) (val : Jx) (tail : JxMembers)
end

def itemsOfList : List Jx → JxItems
  | [] => .nil
  | x :: xs => .cons x (itemsOfList xs)

mutual
/-- Modelled from the spec: Go's `encoding/json.MarshalIndent(v, pre, ind)`
(the standard library is not part of `src/`): every nested element begins on
a new line prefixed by `pre` plus one more copy of `ind` per nesting level;
empty objects and arrays stay on one line.  Number formatting is abstracted
by `numStr` and strings are emitted without escaping (the names involved are
plain identifiers). -/
def jxIndent (numStr : ℚ → String) : Jx → String → String → String
  | .jnull, _, _ => "null"
  | .jbool true, _, _ => "true"
  | .jbool false, _, _ => "false"
  | .jnum q, _, _ => numStr q
  | .jstr s, _, _ => "\"" ++ s ++ "\""
  | .jarr .nil, _, _ => "[]"
  | .jarr (.cons h t), pre, ind =>
    "[\n" ++ jxItemLines numStr (JxItems.cons h t) pre ind ++ "\n" ++ pre ++ "]"
  | .jobj .nil, _, _ => "\x7b\x7d"
  | .jobj (.cons k v t), pre, ind =>
    "\x7b\n" ++ jxMemberLines numStr (JxMembers.cons k v t) pre ind ++ "\n" ++ pre ++ "\x7d"

/-- The `",\n"`-separated lines of a non-empty array body. -/
def jxItemLines (numStr : ℚ → String) : JxItems → String → String → String
  | .nil, _, _ => ""
  | .cons h .nil, pre, ind => pre ++ ind ++ jxIndent numStr h (pre ++ ind) ind
  | .cons h (.cons h2 t), pre, ind =>
    pre ++ ind ++ jxIndent numStr h (pre ++ ind) ind ++ ",\n" ++
      jxItemLines numStr (JxItems.cons h2 t) pre ind

/-- The `",\n"`-separated lines of a non-empty object body. -/
def jxMemberLines (numStr : ℚ → String) : JxMembers → String → String → String
  | .nil, _, _ => ""
  | .cons k v .nil, pre, ind =>
    pre ++ ind ++ "\"" ++ k ++ "\": " ++ jxIndent numStr v (pre ++ ind) ind
  | .cons k v (.cons k2 v2 t), pre, ind =>
    pre ++ ind ++ "\"" ++ k ++ "\": " ++ jxIndent numStr v (pre ++ ind) ind ++ ",\n" ++
      jxMemberLines numStr (JxMembers.cons k2 v2 t) pre ind
end

/-- The result envelope the collaborator `graphql.Do` hands back: the data
tree and the formatted-error list. -/
structure GqlResult (ε : Type) where
  data : Jx
  errors : List ε

/-- `executeQuery` (`part_001` lines 21-31): if the collaborator reported at
least one error, fail with `result.Errors[0].OriginalError()`; otherwise
return the result unchanged. -/
def executeQuery {ε E : Type} (originalError : ε → E) (result : GqlResult ε) :
    Except E (GqlResult ε) :=
  match result.errors with
  | e :: _ => .error (originalError e)
  | [] => .ok result

/-- The JSON tree `json.Marshal` derives from a `*graphql.Result`: a `data`
member, plus an `errors` member only when the error list is non-empty
(`json:"errors,omitempty"`). -/
def resultToJx {ε : Type} (errJ : ε → Jx) (r : GqlResult ε) : Jx :=
  match r.errors with
  | [] => .jobj (.cons "data" r.data .nil)
  | es => .jobj (.cons "data" r.data (.cons "errors" (.jarr (itemsOfList (es.map errJ))) .nil))

/-- The tail of `QueryStructViaGraphql` (`part_001` lines 362-371) from the
collaborator's result on: run `executeQuery`, propagate its error, else
serialize the result with `json.MarshalIndent(result, "", "  ")`. -/
def queryStructTail {ε E : Type} (originalError : ε → E) (errJ : ε → Jx)
    (numStr : ℚ → String) (doResult : GqlResult ε) : Except E String :=
  match executeQuery originalError doResult with
  | .error e => .error e
  | .ok result => .ok (jxIndent numStr (resultToJx errJ result) "" "  ")

/-! ## Claim theorems -/

/-- The mathematical value of a Go value held in any numeric representation
(any integer width or signedness, or either float width); `none` for
non-numeric values.  Used to state what "mathematically equal" means in the
filter-equality claim. -/
def numericValue : RVal → Option ℚ
  | .vint n => some (n : ℚ)
  | .vint8 n => some (n : ℚ)
  | .vint16 n => some (n : ℚ)
  | .vint32 n => some (n : ℚ)
  | .vint64 n => some (n : ℚ)
  | .vuint n => some (n : ℚ)
  | .vuint8 n => some (n : ℚ)
  | .vuint16 n => some (n : ℚ)
  | .vuint32 n => some (n : ℚ)
  | .vuint64 n => some (n : ℚ)
  | .vfloat32 q => some q
  | .vfloat64 q => some q
  | _ => none

/-- C6: for a computed (function-valued) member, a nil bound function
resolves to the null value with no error; otherwise the function is invoked
with the enclosing instance and its returned value and returned error are
propagated unchanged. -/
theorem c6_computed_member {F S V E : Type} (eval : F → S → V × Option E) (source : S) :
    funcResolve eval source none = (none, none) ∧
    ∀ f : F, funcResolve eval source (some f) = (some (eval f source).1, (eval f source).2) := by
  refine ⟨rfl, fun f => ?_⟩
  rcases h : eval f source with ⟨v, e⟩
  cases e <;> simp [funcResolve, h]

/-- C8: a stored integer member of any width and signedness resolves to its
value coerced to `float64` with no error; the coercion is numerically exact
for magnitudes up to `2 ^ 53`, and a 64-bit value beyond that range is
rounded (precision loss) while still being returned without any guard or
error. -/
theorem c8_integer_coercion :
    (∀ n : Int,
      resolveKindSwitch (.vint n) = (some (.vfloat64 ((float64OfInt n : Int) : ℚ)), none) ∧
      resolveKindSwitch (.vint8 n) = (some (.vfloat64 ((float64OfInt n : Int) : ℚ)), none) ∧
      resolveKindSwitch (.vint16 n) = (some (.vfloat64 ((float64OfInt n : Int) : ℚ)), none) ∧
      resolveKindSwitch (.vint32 n) = (some (.vfloat64 ((float64OfInt n : Int) : ℚ)), none) ∧
      resolveKindSwitch (.vint64 n) = (some (.vfloat64 ((float64OfInt n : Int) : ℚ)), none)) ∧
    (∀ n : Nat,
      resolveKindSwitch (.vuint n) = (some (.vfloat64 ((float64OfInt n : Int) : ℚ)), none) ∧
      resolveKindSwitch (.vuint8 n) = (some (.vfloat64 ((float64OfInt n : Int) : ℚ)), none) ∧
      resolveKindSwitch (.vuint16 n) = (some (.vfloat64 ((float64OfInt n : Int) : ℚ)), none) ∧
      resolveKindSwitch (.vuint32 n) = (some (.vfloat64 ((float64OfInt n : Int) : ℚ)), none) ∧
      resolveKindSwitch (.vuint64 n) = (some (.vfloat64 ((float64OfInt n : Int) : ℚ)), none)) ∧
    (∀ n : Int, n.natAbs ≤ 2 ^ 53 → ((float64OfInt n : Int) : ℚ) = (n : ℚ)) ∧
    (float64OfInt (2 ^ 53 + 1) = 2 ^ 53 ∧ (2 ^ 53 : Int) ≠ 2 ^ 53 + 1) := by
  refine ⟨fun n => ⟨rfl, rfl, rfl, rfl, rfl⟩, fun n => ⟨rfl, rfl, rfl, rfl, rfl⟩,
    fun n h => ?_, by decide, by decide⟩
  rw [float64OfInt_exact h]

/-- C8 witness: concrete instances of `c8_integer_coercion`. -/
theorem c8_integer_coercion_witness :
    resolveKindSwitch (.vint 7) = (some (.vfloat64 ((float64OfInt 7 : Int) : ℚ)), none) ∧
    ((float64OfInt (7 : Int) : Int) : ℚ) = ((7 : Int) : ℚ) :=
  ⟨(c8_integer_coercion.1 7).1, c8_integer_coercion.2.2.1 7 (by decide)⟩

/-- C9: the recognised timestamp type `time.Time` collapses at schema
construction to the numeric scalar without registering anything, and a
timestamp value resolves to its milliseconds-since-epoch as `float64`. -/
theorem c9_time_special_case :
    (∀ (tm : TMap) (fm : FMap), lookupA tm "Time" = none →
      build .gtime tm fm = ⟨some .gqlFloat, [], tm, fm, []⟩) ∧
    (∀ ms : Int,
      resolveKindSwitch (.vtime ms) = (some (.vfloat64 ((float64OfInt ms : Int) : ℚ)), none)) := by
  refine ⟨fun tm fm h => ?_, fun ms => rfl⟩
  simp [build, nameOf, h]

/-- C9 witness: concrete instances of `c9_time_special_case`. -/
theorem c9_time_special_case_witness :
    build .gtime [] [] = ⟨some .gqlFloat, [], [], [], []⟩ ∧
    resolveKindSwitch (.vtime 1700000000000) =
      (some (.vfloat64 ((float64OfInt 1700000000000 : Int) : ℚ)), none) :=
  ⟨c9_time_special_case.1 [] [] rfl, c9_time_special_case.2 1700000000000⟩

/-- C10: if the collaborator reports one or more errors the top-level call
fails with exactly the first reported error (the remaining ones influence
nothing); if it reports none, the result tree is serialized with two-space
indentation and returned without error. -/
theorem c10_first_error {ε E : Type} (originalError : ε → E) (errJ : ε → Jx)
    (numStr : ℚ → String) :
    (∀ (doResult : GqlResult ε) (e : ε) (rest : List ε), doResult.errors = e :: rest →
      queryStructTail originalError errJ numStr doResult = .error (originalError e)) ∧
    (∀ doResult : GqlResult ε, doResult.errors = [] →
      queryStructTail originalError errJ numStr doResult =
        .ok (jxIndent numStr (resultToJx errJ doResult) "" "  ")) := by
  constructor
  · intro d e rest h
    simp [queryStructTail, executeQuery, h]
  · intro d h
    simp [queryStructTail, executeQuery, h]

/-- C10 witness: with two reported errors the call fails with the first one
only, and with no errors the tree is serialized with two-space indents. -/
theorem c10_first_error_witness :
    queryStructTail (ε := String) (E := String) id Jx.jstr (fun _ => "1")
      ⟨Jx.jnull, ["boom", "later"]⟩ = .error "boom" ∧
    queryStructTail (ε := String) (E := String) id Jx.jstr (fun _ => "1")
      ⟨Jx.jobj (.cons "dogs" (.jnum 1) .nil), []⟩ =
      .ok "\x7b\n  \"data\": \x7b\n    \"dogs\": 1\n  \x7d\n\x7d" := by
  constructor
  · exact (c10_first_error id Jx.jstr (fun _ => "1")).1 _ "boom" ["later"] rfl
  · rw [(c10_first_error id Jx.jstr (fun _ => "1")).2 _ rfl]
    rfl

/-- C2 counterexample: the claim asserts numeric-aware equality for every
integer width and signedness, but a `uint8` member storing `5` does not
match the numeric filter value `5` (the filter comparison converts no
unsigned representation, so `match` stays `false`). -/
theorem c2_counterexample :
    ¬ ∀ (fv : ℚ) (rv : RVal) (q : ℚ), numericValue rv = some q → fv = q →
        goMatch (.num fv) rv = true := by
  intro h
  have h5 := h 5 (.vuint8 5) 5 (by simp [numericValue]) rfl
  simp [goMatch] at h5

/-- C2 (amended): a numeric filter value compares equal to a member exactly
when the member's representation is `float64`, `int`, `int8`, `int32` or
`int64` and the values are mathematically equal (exact at least for integer
magnitudes up to `2 ^ 53`); members held as `int16`, as any unsigned width,
or as `float32` never match a numeric filter value. -/
theorem c2_numeric_eq_amended :
    (∀ fv q : ℚ, goMatch (.num fv) (.vfloat64 q) = true ↔ fv = q) ∧
    (∀ (fv : ℚ) (n : Int), n.natAbs ≤ 2 ^ 53 →
      ((goMatch (.num fv) (.vint n) = true ↔ fv = (n : ℚ)) ∧
       (goMatch (.num fv) (.vint8 n) = true ↔ fv = (n : ℚ)) ∧
       (goMatch (.num fv) (.vint32 n) = true ↔ fv = (n : ℚ)) ∧
       (goMatch (.num fv) (.vint64 n) = true ↔ fv = (n : ℚ)))) ∧
    (∀ (fv : ℚ) (n : Nat),
      goMatch (.num fv) (.vuint n) = false ∧
      goMatch (.num fv) (.vuint8 n) = false ∧
      goMatch (.num fv) (.vuint16 n) = false ∧
      goMatch (.num fv) (.vuint32 n) = false ∧
      goMatch (.num fv) (.vuint64 n) = false) ∧
    (∀ (fv : ℚ) (n : Int), goMatch (.num fv) (.vint16 n) = false) ∧
    (∀ fv q : ℚ, goMatch (.num fv) (.vfloat32 q) = false) := by
  refine ⟨fun fv q => by simp [goMatch], fun fv n h => ?_,
    fun fv n => ⟨rfl, rfl, rfl, rfl, rfl⟩, fun fv n => rfl, fun fv q => rfl⟩
  refine ⟨?_, ?_, ?_, ?_⟩ <;> simp [goMatch, float64OfInt_exact h]

/-- C2 witness: concrete instances of `c2_numeric_eq_amended`. -/
theorem c2_numeric_eq_amended_witness :
    goMatch (.num 5) (.vfloat64 5) = true ∧ goMatch (.num 5) (.vint 5) = true :=
  ⟨(c2_numeric_eq_amended.1 5 5).mpr rfl,
   ((c2_numeric_eq_amended.2.1 5 5 (by decide)).1).mpr (by norm_num)⟩

/-- C3 counterexample: on the empty slice-kind collection with `skip`
supplied, the claimed window start `min(skip, length-1)` is `-1`, which is
not a valid slice bound, so `r.Slice` panics instead of producing the
claimed sub-collection: the resolution yields no collection at all. -/
theorem c3_counterexample :
    goMin 0 ((([] : List Int).length : Int) - 1) = -1 ∧
    skipLimitResolve false ([] : List Int) (some 0) none = none := ⟨rfl, rfl⟩

/-- C3 (amended): for a slice-kind member over a non-empty collection with
non-negative `skip`, and non-negative `limit` when supplied (with `skip`
absent any collection and any `limit ≥ 0` is fine — in particular the
default window is start `0`, end `length`): the start is clamped to
`min(skip, length-1)`, the end to `min(start+limit, length)`, the window is
valid, and the result is the sub-collection `[start, end)` in original
order.  For an array-kind member the final `r.Slice(i, j)` panics on the
unaddressable array whatever the collection and arguments, so no
sub-collection is ever returned. -/
theorem c3_skip_limit_amended {α : Type} (xs : List α) (skip limit : Option Int)
    (hskip : ∀ s, skip = some s → 0 ≤ s ∧ xs ≠ [])
    (hlimit : ∀ l, limit = some l → 0 ≤ l) :
    (∀ s, skipStart (xs.length : Int) (some s) = goMin s ((xs.length : Int) - 1)) ∧
    skipStart (xs.length : Int) none = 0 ∧
    (∀ i l, limitEnd (xs.length : Int) i (some l) = goMin (i + l) (xs.length : Int)) ∧
    (∀ i, limitEnd (xs.length : Int) i none = (xs.length : Int)) ∧
    0 ≤ skipStart (xs.length : Int) skip ∧
    skipStart (xs.length : Int) skip ≤
      limitEnd (xs.length : Int) (skipStart (xs.length : Int) skip) limit ∧
    limitEnd (xs.length : Int) (skipStart (xs.length : Int) skip) limit ≤ (xs.length : Int) ∧
    skipLimitResolve false xs skip limit =
      some ((xs.drop (skipStart (xs.length : Int) skip).toNat).take
        (limitEnd (xs.length : Int) (skipStart (xs.length : Int) skip) limit -
          skipStart (xs.length : Int) skip).toNat) ∧
    (∀ (ys : List α) (skip2 limit2 : Option Int),
      skipLimitResolve true ys skip2 limit2 = none) := by
  have hi : 0 ≤ skipStart (xs.length : Int) skip ∧
      skipStart (xs.length : Int) skip ≤ (xs.length : Int) := by
    cases hs : skip with
    | none => simp [skipStart]
    | some s =>
      obtain ⟨h0, hne⟩ := hskip s hs
      have hlen : 0 < (xs.length : Int) := by
        cases xs with
        | nil => exact absurd rfl hne
        | cons a l => simp
      simp only [skipStart, goMin]
      split <;> omega
  have hj : skipStart (xs.length : Int) skip ≤
      limitEnd (xs.length : Int) (skipStart (xs.length : Int) skip) limit ∧
      limitEnd (xs.length : Int) (skipStart (xs.length : Int) skip) limit ≤ (xs.length : Int) := by
    cases hl : limit with
    | none => simpa [limitEnd] using hi.2
    | some l =>
      have h0 := hlimit l hl
      simp only [limitEnd, goMin]
      split <;> omega
  refine ⟨fun s => rfl, rfl, fun i l => rfl, fun i => rfl, hi.1, hj.1, hj.2, ?_,
    fun ys skip2 limit2 => rfl⟩
  simp only [skipLimitResolve, goSlice, if_false, Bool.false_eq_true]
  rw [if_pos ⟨hi.1, hj.1, hj.2⟩]

/-- C3 witness: the spec's five-element example: `skip:3, limit:10` on a
slice-kind member yields the elements `[3, 5)`; on an array-kind member it
yields nothing (panic). -/
theorem c3_skip_limit_amended_witness :
    skipLimitResolve false [1, 2, 3, 4, 5] (some 3) (some 10) = some [4, 5] ∧
    skipLimitResolve true [1, 2, 3, 4, 5] (some 3) (some 10) = none := by
  have h := (c3_skip_limit_amended [1, 2, 3, 4, 5] (some 3) (some 10)
    (by intro s hs; cases hs; exact ⟨by decide, by simp⟩)
    (by intro l hl; cases hl; decide))
  exact ⟨by simpa using h.2.2.2.2.2.2.2.1, h.2.2.2.2.2.2.2.2 [1, 2, 3, 4, 5] (some 3) (some 10)⟩

/-- The sample type `Cat` of `main.go` (`Name string`, `Age int`,
`Color string`). -/
def catType : GoType :=
  .gstruct "Cat" (.cons "Name" .gstring (.cons "Age" .gint (.cons "Color" .gstring .nil)))

/-- The sample type `Dog` of `main.go` (`Name string`, `Age int`,
`Color string`, `Friend Cat`, `Enemies func(Dog) ([]Cat, error)`). -/
def dogType : GoType :=
  .gstruct "Dog" (.cons "Name" .gstring (.cons "Age" .gint (.cons "Color" .gstring
    (.cons "Friend" catType (.cons "Enemies" (.gfunc (.gslice catType)) .nil)))))

/-- A record holding a direct collection-of-record member `Pets []Cat`. -/
def ownerType : GoType := .gstruct "Owner" (.cons "Pets" (.gslice catType) .nil)

/-- A record holding a collection of records with no scalar fields:
`Items []Blob` where `Blob` has one member of unsupported kind. -/
def boxType : GoType :=
  .gstruct "Box" (.cons "Items" (.gslice (.gstruct "Blob" (.cons "Data" .gother .nil))) .nil)

/-- C5 counterexample: contrary to the claim, (a) the record-valued member
`Friend Cat` receives one argument per scalar field of `Cat` instead of no
arguments; (b) the collection-of-record member `Pets []Cat` receives those
same per-scalar-field arguments in addition to `where`, not `where` alone;
(c) a collection whose element type has no scalar fields still gets a
`where` argument (with an empty input shape) instead of no filter. -/
theorem c5_counterexample :
    (lookupA (build dogType [] []).flds "friend").map GqlField.args =
      some [("name", .gqlString), ("age", .gqlFloat), ("color", .gqlString)] ∧
    (lookupA (build ownerType [] []).flds "pets").map GqlField.args =
      some [("name", .gqlString), ("age", .gqlFloat), ("color", .gqlString),
        ("where", .inputObject "pets"
          [("name", .gqlString), ("age", .gqlFloat), ("color", .gqlString)])] ∧
    (lookupA (build boxType [] []).flds "items").map GqlField.args =
      some [("where", .inputObject "items" [])] := ⟨rfl, rfl, rfl⟩

/-- C5 (amended): argument synthesis per field shape as the code implements
it.  Every member starts with one argument per scalar-typed subfield of its
resolved field map; a collection-of-record member additionally gets the
`where` argument (memoized in the filter cache by field name, built fresh
from the element type's basic-scalar visible fields when absent, and
attached even when that shape is empty); a collection-of-scalar member
(whose resolved field map is empty) gets exactly the integer `skip` and
`limit` arguments; every other member gets exactly the per-scalar-subfield
arguments, hence none when its type is scalar (empty field map). -/
theorem c5_argument_synthesis_amended :
    (∀ (fname : String) (elem : GoType) (sf : Fields) (fm : FMap),
      kindIsStruct elem = true → lookupA fm fname = none →
      buildArgs fname (.gslice elem) sf fm =
        (insertA (argsFromSubfields sf) "where"
          (.inputObject (lowerStr fname) (filterFields (visibleFields elem))),
         insertA fm fname
          (.inputObject (lowerStr fname) (filterFields (visibleFields elem))))) ∧
    (∀ (fname : String) (elem : GoType) (sf : Fields) (fm : FMap) (cfg : Output),
      kindIsStruct elem = true → lookupA fm fname = some cfg →
      buildArgs fname (.gslice elem) sf fm = (insertA (argsFromSubfields sf) "where" cfg, fm)) ∧
    (∀ (fname : String) (elem : GoType) (fm : FMap), kindIsStruct elem = false →
      buildArgs fname (.gslice elem) [] fm = ([("skip", .gqlInt), ("limit", .gqlInt)], fm)) ∧
    (∀ (fname : String) (t : GoType) (sf : Fields) (fm : FMap),
      (∀ elem, t ≠ .gslice elem) → buildArgs fname t sf fm = (argsFromSubfields sf, fm)) ∧
    argsFromSubfields ([] : Fields) = [] := by
  refine ⟨fun fname elem sf fm hk hl => ?_, fun fname elem sf fm cfg hk hl => ?_,
    fun fname elem fm hk => ?_, fun fname t sf fm ht => ?_, rfl⟩
  · simp [buildArgs, hk, hl]
  · simp [buildArgs, hk, hl]
  · simp [buildArgs, hk, argsFromSubfields, insertA]
  · cases t <;> simp [buildArgs]
    exact absurd rfl (ht _)

/-- C5 witness: concrete instances of `c5_argument_synthesis_amended`: a
fresh `[]Cat` member and a `[]string` member. -/
theorem c5_argument_synthesis_amended_witness :
    buildArgs "Pets" (.gslice catType) [] [] =
      ([("where", .inputObject "pets"
          [("name", .gqlString), ("age", .gqlFloat), ("color", .gqlString)])],
       [("Pets", .inputObject "pets"
          [("name", .gqlString), ("age", .gqlFloat), ("color", .gqlString)])]) ∧
    buildArgs "Tags" (.gslice .gstring) [] [] = ([("skip", .gqlInt), ("limit", .gqlInt)], []) := by
  constructor
  · rw [c5_argument_synthesis_amended.1 "Pets" catType [] [] rfl rfl]
    rfl
  · exact c5_argument_synthesis_amended.2.2.1 "Tags" .gstring [] rfl

/-- Whether some filter member matches the element: the filter key's
same-named member exists and compares equal (the "logical OR across filter
members" the claim describes). -/
def elemMatches (filt : List (String × FilterVal)) (e : Elem) : Bool :=
  filt.any fun kv => Option.any (goMatch kv.2) (fieldByLowerName e kv.1)

theorem option_any_eq_true {α : Type} (p : α → Bool) (o : Option α) :
    Option.any p o = true ↔ ∃ x, o = some x ∧ p x = true := by
  cases o <;> simp [Option.any]

theorem elemScan_eq (filt : List (String × FilterVal)) (e : Elem)
    (hkeys : ∀ kv ∈ filt, (fieldByLowerName e kv.1).isSome) :
    elemScan filt e = some (elemMatches filt e) := by
  induction filt with
  | nil => simp [elemScan, elemMatches]
  | cons kv rest ih =>
    obtain ⟨k, fv⟩ := kv
    obtain ⟨rv, hrv⟩ := Option.isSome_iff_exists.mp (hkeys (k, fv) (by simp))
    have ih2 := ih fun kv2 h2 => hkeys kv2 (by simp [h2])
    by_cases hm : goMatch fv rv = true
    · simp [elemScan, elemMatches, hrv, hm, Option.any]
    · simp only [Bool.not_eq_true] at hm
      simp [elemScan, elemMatches, hrv, hm, Option.any, ih2, elemMatches]

/-- Every `r.Slice` return point of the `where` branch panics for an
array-kind member, so the resolution never produces a collection there. -/
theorem whereResolve_arrayKind (elems : List Elem) (filt : List (String × FilterVal)) :
    whereResolve true elems filt = none := by
  induction elems with
  | nil => rfl
  | cons e rest ih =>
    cases h : elemScan filt e with
    | none => simp [whereResolve, h]
    | some b => cases b <;> simp [whereResolve, h, ih]

/-- C1 counterexample: for an array-kind collection-of-record member the
claim fails even when the first element matches the filter: both
`r.Slice(i, i+1)` (line 270) and `r.Slice(0, 0)` (line 276) panic on the
unaddressable array, so neither the claimed singleton nor the claimed empty
collection is ever returned. -/
theorem c1_counterexample :
    elemMatches [("color", FilterVal.str "Black")] [("Color", RVal.vstr "Black")] = true ∧
    whereResolve true [[("Color", RVal.vstr "Black")]]
      [("color", FilterVal.str "Black")] = none := by
  exact ⟨by decide, rfl⟩

/-- C1 (amended): resolving a slice-kind collection-of-record member with a
`where` argument scans the collection in order; an element matches when
some filter member's value equals the element's same-named member (OR
across members, not a conjunction); the first matching element is returned
as a single-element collection and scanning stops; if no element matches,
the result is the empty collection with no error.  For an array-kind
member every return point panics (`r.Slice` on an unaddressable array), so
no collection is ever returned. -/
theorem c1_where_first_match (elems : List Elem) (filt : List (String × FilterVal))
    (hkeys : ∀ e ∈ elems, ∀ kv ∈ filt, (fieldByLowerName e kv.1).isSome) :
    (∀ e ∈ elems, elemScan filt e = some (elemMatches filt e)) ∧
    ((∀ e ∈ elems, elemMatches filt e = false) → whereResolve false elems filt = some []) ∧
    (∀ (i : Nat) (hi : i < elems.length), elemMatches filt (elems.get ⟨i, hi⟩) = true →
      (∀ (j : Nat) (hj : j < elems.length), j < i → elemMatches filt (elems.get ⟨j, hj⟩) = false) →
      whereResolve false elems filt = some [elems.get ⟨i, hi⟩]) ∧
    (∀ e : Elem, elemMatches filt e = true ↔
      ∃ kv ∈ filt, ∃ rv, fieldByLowerName e kv.1 = some rv ∧ goMatch kv.2 rv = true) ∧
    (∀ (elems2 : List Elem) (filt2 : List (String × FilterVal)),
      whereResolve true elems2 filt2 = none) := by
  refine ⟨fun e he => elemScan_eq filt e (hkeys e he), ?_, ?_, ?_,
    fun elems2 filt2 => whereResolve_arrayKind elems2 filt2⟩
  · intro hnone
    induction elems with
    | nil => rfl
    | cons e rest ih =>
      have hs := elemScan_eq filt e (hkeys e (by simp))
      rw [hnone e (by simp)] at hs
      have ih2 := ih (fun e2 h2 kv hkv => hkeys e2 (by simp [h2]) kv hkv)
        (fun e2 h2 => hnone e2 (by simp [h2]))
      simp [whereResolve, hs, ih2]
  · intro i hi hmatch hbefore
    induction elems generalizing i with
    | nil => exact absurd hi (by simp)
    | cons e rest ih =>
      cases i with
      | zero =>
        have hs := elemScan_eq filt e (hkeys e (by simp))
        simp only [List.get] at hmatch
        rw [hmatch] at hs
        simp [whereResolve, hs]
      | succ i2 =>
        have h0 : elemMatches filt e = false := hbefore 0 (by simp) (by omega)
        have hs := elemScan_eq filt e (hkeys e (by simp))
        rw [h0] at hs
        have ih2 := ih (fun e2 h2 kv hkv => hkeys e2 (by simp [h2]) kv hkv) i2
          (by simpa using hi) (by simpa using hmatch)
          (fun j hj hlt => by
            have := hbefore (j + 1) (by simpa using hj) (by omega)
            simpa using this)
        simp [whereResolve, hs, ih2]
  · intro e
    simp only [elemMatches, List.any_eq_true]
    constructor
    · rintro ⟨kv, hkv, hany⟩
      obtain ⟨rv, hrv, hm⟩ := (option_any_eq_true _ _).mp hany
      exact ⟨kv, hkv, rv, hrv, hm⟩
    · rintro ⟨kv, hkv, rv, hrv, hm⟩
      exact ⟨kv, hkv, (option_any_eq_true _ _).mpr ⟨rv, hrv, hm⟩⟩

/-- C1 witness: the spec's example: the slice-kind collection
`[{Color:"Black"}, {Color:"White"}, {Color:"Black"}]` with
`where:{color:"Black"}` yields the first `Black` element only. -/
theorem c1_where_first_match_witness :
    whereResolve false
      [[("Color", RVal.vstr "Black")], [("Color", RVal.vstr "White")],
        [("Color", RVal.vstr "Black")]]
      [("color", FilterVal.str "Black")] = some [[("Color", RVal.vstr "Black")]] := by
  have h := (c1_where_first_match
    [[("Color", RVal.vstr "Black")], [("Color", RVal.vstr "White")],
      [("Color", RVal.vstr "Black")]]
    [("color", FilterVal.str "Black")] (by decide)).2.2.1 0 (by decide)
    (by decide) (fun j hj hlt => absurd hlt (by omega))
  simpa using h

/-- Concatenation of struct member lists. -/
def appendF : GoFields → GoFields → GoFields
  | .nil, ys => ys
  | .cons n t rest, ys => .cons n t (appendF rest ys)

/-- The member loop processes a concatenation by processing the first part
and continuing with its state. -/
theorem buildFields_append (xs ys : GoFields) (acc : Fields) (tm : TMap) (fm : FMap) :
    buildFields (appendF xs ys) acc tm fm =
      (let r := buildFields xs acc tm fm
       let r2 := buildFields ys r.flds r.tm r.fm
       (⟨r2.flds, r2.tm, r2.fm, r.log ++ r2.log⟩ : FieldsRes)) :=
  match xs with
  | .nil => by simp [appendF, buildFields]
  | .cons n t rest => by
    simp only [appendF, buildFields]
    cases (build t tm fm).out with
    | none => simp [buildFields_append rest ys]
    | some o => simp [buildFields_append rest ys]

/-- An anonymous struct type (its `reflect` name is the empty string). -/
def anonStructType : GoType := .gstruct "" (.cons "X" .gstring .nil)

/-- A record whose first member registers the empty type name and whose
second member is a computed field with interface return type. -/
def trapType : GoType :=
  .gstruct "Trap" (.cons "A" anonStructType (.cons "F" (.gfunc .giface) .nil))

/-- C7 counterexample: a computed member with interface return type is NOT
always excluded: function types have the empty `reflect` name, so once an
anonymous struct has been registered in the type cache under `""`, the cache
lookup (which precedes the interface check) returns that entry and the
member is kept in the schema, typed as the anonymous struct. -/
theorem c7_counterexample :
    (lookupA (build trapType [] []).flds "f").map GqlField.type =
      some (.object "" [("x", GqlField.mk "X" .gqlString [])]) := rfl

/-- C7 (amended): provided the type cache holds no entry under the empty
name when the member is reached (no anonymous type was registered), a
computed member whose return type is an interface kind and a member of an
unrecognised kind are silently skipped — the enclosing record builds to the
same result without them, and record construction still yields an object
with no error. -/
theorem c7_silent_omission_amended (name fname gname : String) (pre post : GoFields)
    (tm : TMap) (fm : FMap) :
    (∀ (acc : Fields) (tm2 : TMap) (fm2 : FMap), lookupA tm2 "" = none →
      buildFields (.cons fname (.gfunc .giface) post) acc tm2 fm2 =
        buildFields post acc tm2 fm2 ∧
      buildFields (.cons gname .gother post) acc tm2 fm2 = buildFields post acc tm2 fm2) ∧
    (lookupA (buildFields pre [] tm fm).tm "" = none →
      build (.gstruct name (appendF pre (.cons fname (.gfunc .giface) post))) tm fm =
        build (.gstruct name (appendF pre post)) tm fm ∧
      build (.gstruct name (appendF pre (.cons gname .gother post))) tm fm =
        build (.gstruct name (appendF pre post)) tm fm) ∧
    (lookupA tm name = none →
      (build (.gstruct name (appendF pre post)) tm fm).out =
        some (.object name (build (.gstruct name (appendF pre post)) tm fm).flds)) := by
  have hskip : ∀ (acc : Fields) (tm2 : TMap) (fm2 : FMap), lookupA tm2 "" = none →
      buildFields (.cons fname (.gfunc .giface) post) acc tm2 fm2 =
        buildFields post acc tm2 fm2 ∧
      buildFields (.cons gname .gother post) acc tm2 fm2 = buildFields post acc tm2 fm2 := by
    intro acc tm2 fm2 h
    have hf : build (.gfunc .giface) tm2 fm2 = ⟨none, [], tm2, fm2, []⟩ := by
      simp [build, nameOf, h]
    have hg : build .gother tm2 fm2 = ⟨none, [], tm2, fm2, []⟩ := by
      simp [build, nameOf, h, getBasicOutput]
    constructor
    · simp [buildFields, hf]
    · simp [buildFields, hg]
  refine ⟨hskip, fun h => ?_, fun h => ?_⟩
  · cases hl : lookupA tm name with
    | some p =>
      constructor <;> simp [build, nameOf, hl]
    | none =>
      have key : ∀ mid : GoFields,
          (∀ fm2 : FMap,
            buildFields mid (buildFields pre [] tm fm).flds (buildFields pre [] tm fm).tm fm2 =
              buildFields post (buildFields pre [] tm fm).flds (buildFields pre [] tm fm).tm fm2) →
          build (.gstruct name (appendF pre mid)) tm fm =
            build (.gstruct name (appendF pre post)) tm fm := by
        intro mid hmid
        simp only [build, nameOf, hl]
        rw [buildFields_append, buildFields_append]
        simp only [hmid]
      constructor
      · exact key _ (fun fm2 =>
          (hskip (buildFields pre [] tm fm).flds (buildFields pre [] tm fm).tm fm2 h).1)
      · exact key _ (fun fm2 =>
          (hskip (buildFields pre [] tm fm).flds (buildFields pre [] tm fm).tm fm2 h).2)
  · simp [build, nameOf, h]

/-- C7 witness: concrete instances of `c7_silent_omission_amended`. -/
theorem c7_silent_omission_amended_witness :
    build (.gstruct "D" (appendF .nil (.cons "F" (.gfunc .giface) .nil))) [] [] =
      build (.gstruct "D" (appendF .nil .nil)) [] [] ∧
    (build (.gstruct "D" (appendF .nil .nil)) [] []).out =
      some (.object "D" (build (.gstruct "D" (appendF .nil .nil)) [] []).flds) :=
  ⟨((c7_silent_omission_amended "D" "F" "G" .nil .nil [] []).2.1 rfl).1,
   (c7_silent_omission_amended "D" "F" "G" .nil .nil [] []).2.2 rfl⟩

/-- Two distinct record types that share the declared name `T`, one nested
inside the other (possible across Go packages, since `reflect.Type.Name()`
carries no package path). -/
def homonymType : GoType :=
  .gstruct "T" (.cons "U" (.gstruct "T" (.cons "X" .gstring .nil)) .nil)

/-- C4 counterexample: the claim that at most one schema object is ever
registered per type name fails: building `homonymType` registers the name
`T` twice (the inner struct first, then the outer overwrites it), as the
ghost registration log shows. -/
theorem c4_counterexample :
    (build homonymType [] []).log = ["T", "T"] ∧ ¬ (build homonymType [] []).log.Nodup := by
  refine ⟨rfl, ?_⟩
  rw [show (build homonymType [] []).log = ["T", "T"] from rfl]
  simp

mutual
/-- Entries present in the type cache are never overwritten by a build. -/
theorem build_preserves (t : GoType) (tm : TMap) (fm : FMap) (n : String)
    (p : Output × Fields) (h : lookupA tm n = some p) :
    lookupA (build t tm fm).tm n = some p := by
  cases hl : lookupA tm (nameOf t) with
  | some q => simpa [build, hl] using h
  | none =>
    cases t
    case gstruct name fs =>
      have hname : nameOf (.gstruct name fs) = name := rfl
      rw [hname] at hl
      have hne : n ≠ name := fun e => by rw [e, hl] at h; exact Option.noConfusion h
      have hb := buildFields_preserves fs [] tm fm n p h
      simp only [build, nameOf, hl]
      rw [lookupA_insertA_ne _ _ _ _ hne]
      exact hb
    case gfunc ret =>
      have hname : nameOf (.gfunc ret) = "" := rfl
      rw [hname] at hl
      cases ret <;> simp [build, nameOf, hl] <;>
        first
        | exact h
        | exact build_preserves _ tm fm n p h
    case gslice elem =>
      have hname : nameOf (.gslice elem) = "" := rfl
      rw [hname] at hl
      simp only [build, nameOf, hl]
      exact build_preserves elem tm fm n p h
    all_goals simp only [nameOf] at hl
    all_goals simpa [build, nameOf, hl] using h

/-- Entries present in the type cache are never overwritten by the member
loop. -/
theorem buildFields_preserves (fs : GoFields) (acc : Fields) (tm : TMap) (fm : FMap)
    (n : String) (p : Output × Fields) (h : lookupA tm n = some p) :
    lookupA (buildFields fs acc tm fm).tm n = some p := by
  cases fs with
  | nil => simpa [buildFields] using h
  | cons fname ftype rest =>
    have h1 := build_preserves ftype tm fm n p h
    simp only [buildFields]
    cases ho : (build ftype tm fm).out with
    | none =>
      simpa using buildFields_preserves rest acc (build ftype tm fm).tm
        (build ftype tm fm).fm n p h1
    | some o =>
      simpa using buildFields_preserves rest
        (insertA acc (lowerStr fname) (GqlField.mk fname o
          (buildArgs fname ftype (build ftype tm fm).flds (build ftype tm fm).fm).1))
        (build ftype tm fm).tm
        (buildArgs fname ftype (build ftype tm fm).flds (build ftype tm fm).fm).2 n p h1
end

/-- C4 (amended): if the type cache already holds an entry for a type's
name, construction returns that entry unchanged with no registration; cache
entries present on entry are never overwritten; a record built on a cache
miss leaves its returned descriptor and field map cached under its name;
hence any later occurrence of a type with that name resolves to the very
same descriptor instance and field set.  (As `c4_counterexample` shows, the
claim's "at most one registration per name" holds only while distinct
record types have distinct names: a same-named nested struct is registered
and then overwritten.) -/
theorem c4_type_cache_amended :
    (∀ (t : GoType) (tm : TMap) (fm : FMap) (p : Output × Fields),
      lookupA tm (nameOf t) = some p → build t tm fm = ⟨some p.1, p.2, tm, fm, []⟩) ∧
    (∀ (t : GoType) (tm : TMap) (fm : FMap) (n : String) (p : Output × Fields),
      lookupA tm n = some p → lookupA (build t tm fm).tm n = some p) ∧
    (∀ (name : String) (fs : GoFields) (tm : TMap) (fm : FMap), lookupA tm name = none →
      (build (.gstruct name fs) tm fm).out =
        some (.object name (build (.gstruct name fs) tm fm).flds) ∧
      lookupA (build (.gstruct name fs) tm fm).tm name =
        some (.object name (build (.gstruct name fs) tm fm).flds,
          (build (.gstruct name fs) tm fm).flds)) ∧
    (∀ (name : String) (fs : GoFields) (t2 : GoType) (tm : TMap) (fm fm2 : FMap),
      lookupA tm name = none → nameOf t2 = name →
      build t2 (build (.gstruct name fs) tm fm).tm fm2 =
        ⟨(build (.gstruct name fs) tm fm).out, (build (.gstruct name fs) tm fm).flds,
          (build (.gstruct name fs) tm fm).tm, fm2, []⟩) := by
  have cacheHit : ∀ (t : GoType) (tm : TMap) (fm : FMap) (p : Output × Fields),
      lookupA tm (nameOf t) = some p → build t tm fm = ⟨some p.1, p.2, tm, fm, []⟩ := by
    intro t tm fm p h
    simp [build, h]
  have registered : ∀ (name : String) (fs : GoFields) (tm : TMap) (fm : FMap),
      lookupA tm name = none →
      (build (.gstruct name fs) tm fm).out =
        some (.object name (build (.gstruct name fs) tm fm).flds) ∧
      lookupA (build (.gstruct name fs) tm fm).tm name =
        some (.object name (build (.gstruct name fs) tm fm).flds,
          (build (.gstruct name fs) tm fm).flds) := by
    intro name fs tm fm h
    constructor
    · simp [build, nameOf, h]
    · simp only [build, nameOf, h]
      exact lookupA_insertA_self _ _ _
  refine ⟨cacheHit, fun t tm fm n p h => build_preserves t tm fm n p h, registered,
    fun name fs t2 tm fm fm2 h hn => ?_⟩
  subst hn
  obtain ⟨ho, hreg⟩ := registered (nameOf t2) fs tm fm h
  rw [cacheHit t2 (build (.gstruct (nameOf t2) fs) tm fm).tm fm2 _ hreg, ho]

/-- C4 witness: concrete instances of `c4_type_cache_amended`: a cache hit
returns the cached entry unchanged, and rebuilding `Cat` against the cache
produced by its first build returns the registered instance. -/
theorem c4_type_cache_amended_witness :
    build catType [("Cat", (Output.gqlBoolean, ([] : Fields)))] [] =
      ⟨some Output.gqlBoolean, [], [("Cat", (Output.gqlBoolean, ([] : Fields)))], [], []⟩ ∧
    build catType (build catType [] []).tm [] =
      ⟨(build catType [] []).out, (build catType [] []).flds, (build catType [] []).tm, [], []⟩ :=
  ⟨c4_type_cache_amended.1 catType [("Cat", (Output.gqlBoolean, ([] : Fields)))] []
      (Output.gqlBoolean, ([] : Fields)) rfl,
   c4_type_cache_amended.2.2.2 "Cat"
      (.cons "Name" .gstring (.cons "Age" .gint (.cons "Color" .gstring .nil)))
      catType [] [] [] rfl rfl⟩

end GraphqlReflect
